import Mathlib

/-!
Shallow embedding of `src/drone.py`.

The program is a long-running "drone" process that owns a named FIFO on the
filesystem, polls it in non-blocking mode for newline-delimited commands,
optionally watches directories for file modifications, and supervises
subprocess execution of the received commands.  The definitions below are
translated from the source file; line numbers in doc comments refer to
`src/drone.py`.
-/

/-- The poison literal (line 17): `EXIT = "exit"`. -/
def EXIT : String := "exit"

/-- Exit status produced by `error` (lines 20-24): it prints a message and
raises `SystemExit(1)`, so the process terminates with status 1. -/
def errorExitCode : Nat := 1

/-- The line-break characters recognised by Python's `str.splitlines`,
which `Drone.run` uses to split a decoded read buffer (line 98). -/
def isLineBreak (c : Char) : Bool :=
  c == '\n' || c == '\r' || c == '\x0b' || c == '\x0c' ||
  c == '\x1c' || c == '\x1d' || c == '\x1e' || c == '\x85' ||
  c == '\u2028' || c == '\u2029'

/-- Worker for `pySplitlines`: `acc` is the current line, reversed. -/
def splitlinesGo : List Char → List Char → List String
  | [], [] => []
  | [], acc => [String.mk acc.reverse]
  | '\r' :: '\n' :: rest, acc => String.mk acc.reverse :: splitlinesGo rest []
  | c :: rest, acc =>
    if isLineBreak c then String.mk acc.reverse :: splitlinesGo rest []
    else splitlinesGo rest (c :: acc)

/-- Python's `str.splitlines`, as used in `Drone.run` (line 98):
`buffer.decode("utf-8").splitlines()`.  A trailing line-break does not
produce an extra empty line; a final unterminated segment is kept. -/
def pySplitlines (s : String) : List String := splitlinesGo s.data []

/-- Lexer modes of the shell-word tokenizer. -/
inductive ShMode where
  | normal
  | inSingle
  | inDouble
  deriving DecidableEq

/-- Whitespace characters of Python's `shlex` lexer. -/
def isShWhitespace (c : Char) : Bool :=
  c == ' ' || c == '\t' || c == '\r' || c == '\n'

/-- Worker for `shlexSplit`: input characters, current token (reversed),
whether a token is open, and the lexer mode.  `none` models a lexical
error (`ValueError`: unclosed quote or dangling escape). -/
def shlexGo : List Char → List Char → Bool → ShMode → Option (List String)
  | [], acc, inTok, .normal =>
    some (if inTok then [String.mk acc.reverse] else [])
  | [], _, _, _ => none
  | c :: rest, acc, inTok, .normal =>
    if isShWhitespace c then
      if inTok then (shlexGo rest [] false .normal).map
        (fun ts => String.mk acc.reverse :: ts)
      else shlexGo rest [] false .normal
    else if c = '\'' then shlexGo rest acc true .inSingle
    else if c = '"' then shlexGo rest acc true .inDouble
    else if c = '\\' then
      match rest with
      | [] => none
      | d :: rest2 => shlexGo rest2 (d :: acc) true .normal
    else shlexGo rest (c :: acc) true .normal
  | c :: rest, acc, inTok, .inSingle =>
    if c = '\'' then shlexGo rest acc inTok .normal
    else shlexGo rest (c :: acc) inTok .inSingle
  | c :: rest, acc, inTok, .inDouble =>
    if c = '"' then shlexGo rest acc inTok .normal
    else if c = '\\' then
      match rest with
      | [] => none
      | d :: rest2 =>
        if d = '"' || d = '\\' then shlexGo rest2 (d :: acc) inTok .inDouble
        else shlexGo rest2 (d :: '\\' :: acc) inTok .inDouble
    else shlexGo rest (c :: acc) inTok .inDouble

/-- Modelled from Python's `shlex.split` (POSIX mode), which
`Drone.run_command` (lines 61 and 66) uses to tokenize a command string
into an argument vector. -/
def shlexSplit (s : String) : Option (List String) :=
  shlexGo s.data [] false .normal

/-- Result of one launch attempt inside `Drone.run_command`. -/
inductive LaunchOutcome where
  | ok
  | failed
  deriving DecidableEq

/-- The launch attempt of `Drone.run_command` (lines 57-66): the command is
tokenized with `shlex.split` and handed to `subprocess.run` / `subprocess.Popen`.
`programFound prog` models whether `prog` resolves to an executable; a
tokenizer error, an empty argument vector, or an unresolvable program all
raise an exception (`ValueError`, `IndexError`, `FileNotFoundError`), and
nothing in the source catches them. -/
def launchOutcome (programFound : String → Bool) (cmd : String) : LaunchOutcome :=
  match shlexSplit cmd with
  | none => .failed
  | some [] => .failed
  | some (prog :: _) => if programFound prog then .ok else .failed

/-- How the processing of one read batch ends in `Drone.run` (lines 97-102). -/
inductive BatchExit where
  | done
  | poison
  | launchCrash (cmd : String)
  deriving DecidableEq

/-- The inner `for cmd in cmds` loop of `Drone.run` (lines 99-102): each line
equal to `EXIT` triggers `error(...)` (poison stop); otherwise
`run_command cmd` is invoked, and an exception from a failed launch
propagates uncaught.  Returns the list of commands actually passed to
`run_command`, in order, and how the batch ended. -/
def processCmds (pf : String → Bool) : List String → List String × BatchExit
  | [] => ([], .done)
  | c :: rest =>
    if c = EXIT then ([], .poison)
    else
      match launchOutcome pf c with
      | .failed => ([c], .launchCrash c)
      | .ok =>
        let r := processCmds pf rest
        (c :: r.1, r.2)

/-- Outcome of the non-blocking `os.read` in one loop iteration
(lines 88-96): data, `EWOULDBLOCK`/`EAGAIN` (buffer is `None`), or a fatal
`OSError`. -/
inductive ReadResult where
  | wouldBlock
  | bytes (text : String)
  | fatalError
  deriving DecidableEq

/-- External observations for one iteration of the `while self.running` loop:
whether a `SIGINT` was delivered before the loop condition was re-checked
(the handler, line 74, only clears `self.running`), and what the channel
read returns. -/
structure IterObs where
  sigint : Bool
  read : ReadResult
  deriving DecidableEq

/-- How a run of the drone loop ended. -/
inductive RunResult where
  | cleanStop
  | poisonStop
  | readErrorStop
  | launchCrashStop (cmd : String)
  | stillRunning
  deriving DecidableEq

/-- The `while self.running` loop of `Drone.run` (lines 81-102), for a drone
with an empty watch set, driven by a script of per-iteration observations.
Returns how the loop ended together with every command passed to
`run_command`, in order.  A `SIGINT` makes the loop condition fail, after
which line 104 unlinks the channel and `run` returns; a poison line raises
`SystemExit(1)` from `error`; a fatal read error leaves the `except` block
by an exception (line 95 calls `os.unlink(fd)` on the integer file
descriptor, which raises `TypeError`); a failed launch raises out of
`run_command`.  None of the three exceptional exits reaches line 104. -/
def loopGo (pf : String → Bool) : List IterObs → RunResult × List String
  | [] => (.stillRunning, [])
  | obs :: rest =>
    if obs.sigint then (.cleanStop, [])
    else
      match obs.read with
      | .wouldBlock => loopGo pf rest
      | .fatalError => (.readErrorStop, [])
      | .bytes text =>
        let b := processCmds pf (pySplitlines text)
        match b.2 with
        | .done =>
          let r := loopGo pf rest
          (r.1, b.1 ++ r.2)
        | .poison => (.poisonStop, b.1)
        | .launchCrash c => (.launchCrashStop c, b.1)

/-- Observable outcome of one run of `Drone.run` started through `main`
(lines 71-104 and 214-223): how the loop ended, the `run_command`
invocations, whether the FIFO at `self.addr` still exists when the process
ends (only the clean path executes `os.unlink(self.addr)` on line 104),
and the process exit status (`main` returns 0 on a clean stop;
`SystemExit(1)` from `error` and any uncaught exception exit with 1). -/
structure RunOutcome where
  result : RunResult
  invoked : List String
  fifoExists : Bool
  exitCode : Option Nat
  deriving DecidableEq

/-- `Drone.run` from a successful start (the FIFO was created on lines 75-79)
to process exit, for a drone with an empty watch set. -/
def runDrone (pf : String → Bool) (script : List IterObs) : RunOutcome :=
  let r := loopGo pf script
  { result := r.1
    invoked := r.2
    fifoExists := match r.1 with
      | .cleanStop => false
      | _ => true
    exitCode := match r.1 with
      | .cleanStop => some 0
      | .stillRunning => none
      | _ => some errorExitCode }

/-- `send_command` (lines 148-150) writes `args.cmd.encode("utf-8")` to the
selected channel: exactly the UTF-8 bytes of the command string, with no
newline or other framing appended. -/
def send_command_payload (cmd : String) : ByteArray := cmd.toUTF8

/-- `Drone.check_watch_dirs` (lines 47-55).  The nested iteration over
`self.watch_dirs` and `wd.iterdir()` is modelled by a flat snapshot: the
list of (path, modification time) pairs presented in iteration order.
For each entry, the recorded time is looked up; if there is no record or it
differs from the current time, `watch_triggered` is set (never cleared
here); the record is then overwritten.  Modification times enter the
comparison only through equality, so they are modelled as `Nat`. -/
def check_watch_dirs (snapshot : List (String × Nat))
    (dict : String → Option Nat) (trig : Bool) :
    (String → Option Nat) × Bool :=
  match snapshot with
  | [] => (dict, trig)
  | (p, m) :: rest =>
    let trig2 := match dict p with
      | none => true
      | some r => if r ≠ m then true else trig
    check_watch_dirs rest (fun q => if q = p then some m else dict q) trig2

/-- The watch state set up by `Drone.__init__` (lines 43-45): an empty record
dictionary and a cleared trigger flag, after which `check_watch_dirs` runs
once. -/
def firstScan (snapshot : List (String × Nat)) : (String → Option Nat) × Bool :=
  check_watch_dirs snapshot (fun _ => none) false

/-- State of the subprocess supervision in `Drone` under the non-patient
policy: the `self.current_subprocess` handle, which spawned handles are
still alive (`poll() is None`), and a counter producing fresh handles. -/
structure SupState where
  current : Option Nat
  alive : Nat → Bool
  nextId : Nat

/-- The initial supervision state (`__init__`, line 32:
`self.current_subprocess = None`). -/
def initSup : SupState := { current := none, alive := fun _ => false, nextId := 0 }

/-- Observable actions of `Drone.run_command`. -/
inductive SupAct where
  | kill (h : Nat)
  | spawn (h : Nat)
  deriving DecidableEq

/-- The non-patient branch of `Drone.run_command` (lines 63-66): if the
current subprocess exists and `poll()` reports it still running, it is
killed; then the new command is launched with `Popen` and its handle
becomes current.  Returns the actions in program order and the new
state. -/
def run_command_nonpatient (s : SupState) : List SupAct × SupState :=
  let n := s.nextId
  match s.current with
  | some h =>
    if s.alive h then
      ([.kill h, .spawn n],
       { current := some n
         alive := fun x => if x = n then true else if x = h then false else s.alive x
         nextId := n + 1 })
    else
      ([.spawn n],
       { current := some n
         alive := fun x => if x = n then true else s.alive x
         nextId := n + 1 })
  | none =>
    ([.spawn n],
     { current := some n
       alive := fun x => if x = n then true else s.alive x
       nextId := n + 1 })

/-- Events driving the supervision state: a new command is dispatched to
`run_command`, or a previously launched child exits on its own. -/
inductive SupEvent where
  | newCommand
  | childExits (h : Nat)
  deriving DecidableEq

/-- One supervision step. -/
def supStep (s : SupState) : SupEvent → List SupAct × SupState
  | .newCommand => run_command_nonpatient s
  | .childExits h =>
    ([], { s with alive := fun x => if x = h then false else s.alive x })

/-- A run of the supervision state machine, collecting all actions. -/
def supRun (s : SupState) : List SupEvent → List SupAct × SupState
  | [] => ([], s)
  | e :: es =>
    let r := supStep s e
    let r2 := supRun r.2 es
    (r.1 ++ r2.1, r2.2)

/-- Little-endian decimal digits of `n`, with explicit fuel (the recursion
of repeated division by 10; `fuel = n + 1` always suffices). -/
def natDigitsAux : Nat → Nat → List Nat
  | 0, _ => []
  | fuel + 1, n => if n < 10 then [n] else n % 10 :: natDigitsAux fuel (n / 10)

/-- Python's `str` on a non-negative integer (line 117: `id = str(int_id)`):
the decimal digit string. -/
def pyStr (n : Nat) : String :=
  String.mk (((natDigitsAux (n + 1) n).reverse).map Nat.digitChar)

/-- The allocation loop of `init_drone` (lines 114-116):
`while str(int_id) in names: int_id += 1`, with explicit fuel.  Fuel
`names.length + 1` always suffices, because the candidate strings are
pairwise distinct. -/
def alloc_loop (names : List String) : Nat → Nat → Nat
  | 0, i => i
  | fuel + 1, i => if pyStr i ∈ names then alloc_loop names fuel (i + 1) else i

/-- `init_drone` (lines 107-117) when no explicit id was requested:
starting from 1, the first integer whose decimal string is not among the
existing channel names becomes the drone id. -/
def init_drone_id (names : List String) : String :=
  pyStr (alloc_loop names (names.length + 1) 1)

/-- A program-resolution environment in which every program launches. -/
def pfAll : String → Bool := fun _ => true

/-- A program-resolution environment in which the program `nosuch` does not
resolve (models `FileNotFoundError` from `subprocess`). -/
def pfBad : String → Bool := fun p => p != "nosuch"

/-- Value of a digit list read back as a number (little-endian, base 10);
used to show that `pyStr` is injective. -/
def ofDigits : List Nat → Nat
  | [] => 0
  | d :: ds => d + 10 * ofDigits ds

/-- Invariant of the supervision state: every live child is the current
handle, and handles not yet spawned are not alive. -/
def SupInv (s : SupState) : Prop :=
  (∀ h, s.alive h = true → s.current = some h) ∧
  (∀ h, s.nextId ≤ h → s.alive h = false)

/-- Once `watch_triggered` is set it is never cleared by the scan. -/
theorem cwd_trig_true (l : List (String × Nat)) :
    ∀ d : String → Option Nat, (check_watch_dirs l d true).2 = true := by
  induction l with
  | nil => intro d; rfl
  | cons qn rest ih =>
    intro d
    obtain ⟨q, n⟩ := qn
    rcases hd : d q with _ | r
    · simpa [check_watch_dirs, hd] using ih _
    · by_cases hr : r = n <;> simp [check_watch_dirs, hd, hr, ih]

/-- A scan over a snapshot with pairwise distinct paths sets the trigger
whenever some entry's recorded time is absent or different. -/
theorem cwd_mismatch (l : List (String × Nat)) :
    ∀ (d : String → Option Nat) (t : Bool) (p : String) (m : Nat),
      (l.map Prod.fst).Nodup → (p, m) ∈ l → d p ≠ some m →
      (check_watch_dirs l d t).2 = true := by
  induction l with
  | nil => intro d t p m _ hmem _; simp at hmem
  | cons qn rest ih =>
    intro d t p m hnd hmem hne
    obtain ⟨q, n⟩ := qn
    simp only [List.map_cons, List.nodup_cons] at hnd
    rcases List.mem_cons.mp hmem with heq | hmem2
    · injection heq with h1 h2
      subst h1; subst h2
      rcases hd : d p with _ | r
      · simpa [check_watch_dirs, hd] using cwd_trig_true rest _
      · have hr : r ≠ m := fun he => hne (by rw [hd, he])
        simpa [check_watch_dirs, hd, hr] using cwd_trig_true rest _
    · have hpq : p ≠ q := fun he => hnd.1 (he ▸ List.mem_map_of_mem Prod.fst hmem2)
      simp only [check_watch_dirs]
      exact ih _ _ _ _ hnd.2 hmem2 (by simpa [hpq] using hne)

/-- A scan in which every entry matches its record leaves the trigger
cleared. -/
theorem cwd_match (l : List (String × Nat)) :
    ∀ d : String → Option Nat, (∀ pm ∈ l, d pm.1 = some pm.2) →
      (check_watch_dirs l d false).2 = false := by
  induction l with
  | nil => intro d _; rfl
  | cons qn rest ih =>
    intro d hall
    obtain ⟨q, n⟩ := qn
    have hq : d q = some n := hall (q, n) (List.mem_cons_self _ _)
    simp only [check_watch_dirs, hq]
    rw [if_neg (fun h : n ≠ n => h rfl)]
    apply ih
    intro pm hpm
    have hrest := hall pm (List.mem_cons_of_mem _ hpm)
    by_cases hx : pm.1 = q
    · rw [hx] at hrest
      rw [hq] at hrest
      injection hrest with h2
      simp [hx, h2]
    · simpa [hx] using hrest

/-- A scan does not touch records of paths outside the snapshot. -/
theorem cwd_dict_notmem (l : List (String × Nat)) :
    ∀ (d : String → Option Nat) (t : Bool) (p : String), p ∉ l.map Prod.fst →
      (check_watch_dirs l d t).1 p = d p := by
  induction l with
  | nil => intro d t p _; rfl
  | cons qn rest ih =>
    intro d t p hp
    obtain ⟨q, n⟩ := qn
    simp only [List.map_cons, List.mem_cons, not_or] at hp
    simp only [check_watch_dirs]
    rw [ih _ _ _ hp.2]
    simp [hp.1]

/-- After a scan over a snapshot with pairwise distinct paths, every entry's
modification time is recorded. -/
theorem cwd_dict (l : List (String × Nat)) :
    ∀ (d : String → Option Nat) (t : Bool) (p : String) (m : Nat),
      (l.map Prod.fst).Nodup → (p, m) ∈ l →
      (check_watch_dirs l d t).1 p = some m := by
  induction l with
  | nil => intro d t p m _ h; simp at h
  | cons qn rest ih =>
    intro d t p m hnd hmem
    obtain ⟨q, n⟩ := qn
    simp only [List.map_cons, List.nodup_cons] at hnd
    simp only [check_watch_dirs]
    rcases List.mem_cons.mp hmem with heq | hmem2
    · injection heq with h1 h2
      subst h1; subst h2
      rw [cwd_dict_notmem rest _ _ _ hnd.1]
      simp
    · exact ih _ _ _ _ hnd.2 hmem2

/-- C1: the claim states that the FIFO at the drone's address is removed
before the process ends on every termination path.  In the code this holds
only for the signal path: on the poison path `error` raises
`SystemExit(1)`, which propagates past the `os.unlink(self.addr)` on
line 104, and on the fatal-read path line 95 calls `os.unlink(fd)` on the
integer file descriptor (a `TypeError`) so the address is never unlinked.
This theorem evaluates the model on the three paths: the FIFO is left
behind on the poison and fatal-read stops and removed only on the clean
signal stop. -/
theorem c1_fifo_teardown_paths :
    (runDrone pfAll [⟨false, .bytes "exit"⟩]).result = .poisonStop ∧
    (runDrone pfAll [⟨false, .bytes "exit"⟩]).exitCode = some errorExitCode ∧
    (runDrone pfAll [⟨false, .bytes "exit"⟩]).fifoExists = true ∧
    (runDrone pfAll [⟨false, .fatalError⟩]).result = .readErrorStop ∧
    (runDrone pfAll [⟨false, .fatalError⟩]).fifoExists = true ∧
    (runDrone pfAll [⟨true, .wouldBlock⟩]).result = .cleanStop ∧
    (runDrone pfAll [⟨true, .wouldBlock⟩]).fifoExists = false := by
  decide

/-- C2 counterexample: the claim states that after the first scan the
trigger flag stays false for a pre-existing, unmodified file.  In the code
the first scan runs against an empty record set and `record is None`
already sets `watch_triggered`, so with one pre-existing file the flag is
true after the first scan, not false. -/
theorem c2_first_scan_counterexample : (firstScan [("f", 5)]).2 = true := rfl

/-- C2 amended: the first scan records a baseline for every entry, but sets
the trigger flag for every pre-existing file (a path with no record counts
as changed), so the flag is true after the first scan over any non-empty
snapshot; on a scan against an existing record set, a single entry whose
modification time differs from its record sets the (single, boolean)
trigger, while a snapshot that matches all records leaves it cleared. -/
theorem c2_watch_scan_amended (snap : List (String × Nat)) :
    ((firstScan snap).2 = !snap.isEmpty) ∧
    (∀ p m, (snap.map Prod.fst).Nodup → (p, m) ∈ snap →
      (firstScan snap).1 p = some m) ∧
    (∀ (d : String → Option Nat) (p : String) (m : Nat),
      (snap.map Prod.fst).Nodup → (p, m) ∈ snap → d p ≠ some m →
      (check_watch_dirs snap d false).2 = true) ∧
    (∀ d : String → Option Nat, (∀ pm ∈ snap, d pm.1 = some pm.2) →
      (check_watch_dirs snap d false).2 = false) := by
  refine ⟨?_, ?_, ?_, ?_⟩
  · cases snap with
    | nil => rfl
    | cons qn rest =>
      obtain ⟨q, n⟩ := qn
      simpa [firstScan, check_watch_dirs] using cwd_trig_true rest _
  · intro p m hnd hmem
    exact cwd_dict snap _ _ _ _ hnd hmem
  · intro d p m hnd hmem hne
    exact cwd_mismatch snap _ _ _ _ hnd hmem hne
  · intro d hall
    exact cwd_match snap _ hall

/-- Witness for `c2_watch_scan_amended` at a one-file snapshot: the first
scan sets the flag, records the baseline, a changed time triggers on the
second scan, and an unchanged one does not. -/
theorem c2_watch_scan_amended_witness :
    ((firstScan [("f", 5)]).2 = !([("f", 5)] : List (String × Nat)).isEmpty) ∧
    ((firstScan [("f", 5)]).1 "f" = some 5) ∧
    ((check_watch_dirs [("f", 6)] (firstScan [("f", 5)]).1 false).2 = true) ∧
    ((check_watch_dirs [("f", 5)] (firstScan [("f", 5)]).1 false).2 = false) :=
  ⟨(c2_watch_scan_amended [("f", 5)]).1,
   (c2_watch_scan_amended [("f", 5)]).2.1 "f" 5 (by decide) (by decide),
   (c2_watch_scan_amended [("f", 6)]).2.2.1 (firstScan [("f", 5)]).1 "f" 6
     (by decide) (by decide) (by decide),
   (c2_watch_scan_amended [("f", 5)]).2.2.2 (firstScan [("f", 5)]).1
     (by decide)⟩

/-- One loop iteration that was not interrupted by a signal. -/
theorem loopGo_result_cons (pf : String → Bool) (o : IterObs) (rest : List IterObs)
    (ho : o.sigint = false) :
    (loopGo pf (o :: rest)).1 =
      match o.read with
      | .wouldBlock => (loopGo pf rest).1
      | .fatalError => .readErrorStop
      | .bytes t =>
        match (processCmds pf (pySplitlines t)).2 with
        | .done => (loopGo pf rest).1
        | .poison => .poisonStop
        | .launchCrash c => .launchCrashStop c := by
  cases hr : o.read with
  | wouldBlock => simp [loopGo, ho, hr]
  | fatalError => simp [loopGo, ho, hr]
  | bytes t =>
    cases hb : (processCmds pf (pySplitlines t)).2 <;>
      simp [loopGo, ho, hr, hb]

/-- If a non-interrupted head iteration ends the loop with outcome `X`, no
decomposition of the script can exhibit a clean signal stop. -/
theorem no_sigint_decomp (pf : String → Bool) (o : IterObs) (rest : List IterObs)
    (ho : o.sigint = false) (X : RunResult) (hX : X ≠ .stillRunning)
    (hhead : ∀ q, (loopGo pf (o :: q)).1 = X) :
    ¬ ∃ pre obs post, o :: rest = pre ++ obs :: post ∧ obs.sigint = true ∧
      (loopGo pf pre).1 = .stillRunning := by
  rintro ⟨pre, obs, post, hs, hsig, hpre⟩
  cases pre with
  | nil =>
    injection hs with h1 _
    rw [← h1] at hsig
    rw [ho] at hsig
    cases hsig
  | cons p pre2 =>
    injection hs with h1 h2
    rw [← h1] at hpre
    rw [hhead pre2] at hpre
    exact hX hpre

/-- If the head iteration neither stops the loop nor was interrupted, the
clean-stop decompositions of the script and of its tail agree. -/
theorem sigint_decomp_cons (pf : String → Bool) (o : IterObs) (rest : List IterObs)
    (ho : o.sigint = false)
    (hhead : ∀ q, (loopGo pf (o :: q)).1 = (loopGo pf q).1) :
    (∃ pre obs post, o :: rest = pre ++ obs :: post ∧ obs.sigint = true ∧
      (loopGo pf pre).1 = .stillRunning) ↔
    (∃ pre obs post, rest = pre ++ obs :: post ∧ obs.sigint = true ∧
      (loopGo pf pre).1 = .stillRunning) := by
  constructor
  · rintro ⟨pre, obs, post, hs, hsig, hpre⟩
    cases pre with
    | nil =>
      injection hs with h1 _
      rw [← h1] at hsig
      rw [ho] at hsig
      cases hsig
    | cons p pre2 =>
      injection hs with h1 h2
      rw [← h1] at hpre
      rw [hhead pre2] at hpre
      exact ⟨pre2, obs, post, h2, hsig, hpre⟩
  · rintro ⟨pre, obs, post, hs, hsig, hpre⟩
    refine ⟨o :: pre, obs, post, by rw [hs]; rfl, hsig, ?_⟩
    rw [hhead pre]
    exact hpre

/-- The loop ends in a clean stop exactly when a `SIGINT` was delivered
after a prefix of iterations that all completed normally. -/
theorem cleanStop_iff_sigint (pf : String → Bool) (script : List IterObs) :
    (loopGo pf script).1 = .cleanStop ↔
    ∃ pre obs post, script = pre ++ obs :: post ∧ obs.sigint = true ∧
      (loopGo pf pre).1 = .stillRunning := by
  induction script with
  | nil =>
    constructor
    · intro h
      simp [loopGo] at h
    · rintro ⟨pre, obs, post, h, -, -⟩
      have := congrArg List.length h
      simp at this
      omega
  | cons o rest ih =>
    by_cases ho : o.sigint = true
    · constructor
      · intro _
        exact ⟨[], o, rest, rfl, ho, rfl⟩
      · intro _
        simp [loopGo, ho]
    · have ho2 : o.sigint = false := by simpa using ho
      have hstep := loopGo_result_cons pf o rest ho2
      cases hr : o.read with
      | wouldBlock =>
        have hhead : ∀ q, (loopGo pf (o :: q)).1 = (loopGo pf q).1 := by
          intro q; simp [loopGo, ho2, hr]
        rw [hhead rest, ih]
        exact (sigint_decomp_cons pf o rest ho2 hhead).symm
      | fatalError =>
        have hhead : ∀ q, (loopGo pf (o :: q)).1 = RunResult.readErrorStop := by
          intro q; simp [loopGo, ho2, hr]
        rw [hhead rest]
        constructor
        · intro h; cases h
        · intro hex
          exact absurd hex (no_sigint_decomp pf o rest ho2 _ (by simp) hhead)
      | bytes t =>
        cases hb : (processCmds pf (pySplitlines t)).2 with
        | done =>
          have hhead : ∀ q, (loopGo pf (o :: q)).1 = (loopGo pf q).1 := by
            intro q; simp [loopGo, ho2, hr, hb]
          rw [hhead rest, ih]
          exact (sigint_decomp_cons pf o rest ho2 hhead).symm
        | poison =>
          have hhead : ∀ q, (loopGo pf (o :: q)).1 = RunResult.poisonStop := by
            intro q; simp [loopGo, ho2, hr, hb]
          rw [hhead rest]
          constructor
          · intro h; cases h
          · intro hex
            exact absurd hex (no_sigint_decomp pf o rest ho2 _ (by simp) hhead)
        | launchCrash c =>
          have hhead : ∀ q, (loopGo pf (o :: q)).1 = RunResult.launchCrashStop c := by
            intro q; simp [loopGo, ho2, hr, hb]
          rw [hhead rest]
          constructor
          · intro h; cases h
          · intro hex
            exact absurd hex (no_sigint_decomp pf o rest ho2 _ (by simp) hhead)

/-- C5: the two shutdown paths are asymmetric.  A clean stop (which happens
exactly when the interrupt signal flipped the running flag) removes the
FIFO and exits with status 0; the poison stop exits through `error` with
the nonzero status 1 (and, per C1, leaves the FIFO behind). -/
theorem c5_shutdown_asymmetry (pf : String → Bool) (script : List IterObs) :
    ((runDrone pf script).result = .cleanStop →
      (runDrone pf script).exitCode = some 0 ∧
      (runDrone pf script).fifoExists = false) ∧
    ((runDrone pf script).result = .poisonStop →
      (runDrone pf script).exitCode = some errorExitCode ∧ errorExitCode ≠ 0) ∧
    ((runDrone pf script).result = .cleanStop ↔
      ∃ pre obs post, script = pre ++ obs :: post ∧ obs.sigint = true ∧
        (loopGo pf pre).1 = .stillRunning) := by
  have hres : (runDrone pf script).result = (loopGo pf script).1 := rfl
  refine ⟨?_, ?_, ?_⟩
  · intro h
    rw [hres] at h
    exact ⟨by simp [runDrone, h], by simp [runDrone, h]⟩
  · intro h
    rw [hres] at h
    exact ⟨by simp [runDrone, h], by simp [errorExitCode]⟩
  · rw [hres]
    exact cleanStop_iff_sigint pf script

/-- Witness for `c5_shutdown_asymmetry`: a signal stop after one idle
iteration exits 0 with the FIFO removed; a poison batch exits 1. -/
theorem c5_shutdown_asymmetry_witness :
    ((runDrone pfAll [⟨true, .wouldBlock⟩]).exitCode = some 0 ∧
     (runDrone pfAll [⟨true, .wouldBlock⟩]).fifoExists = false) ∧
    ((runDrone pfAll [⟨false, .bytes "exit"⟩]).exitCode = some errorExitCode ∧
     errorExitCode ≠ 0) :=
  ⟨(c5_shutdown_asymmetry pfAll [⟨true, .wouldBlock⟩]).1 (by decide),
   (c5_shutdown_asymmetry pfAll [⟨false, .bytes "exit"⟩]).2.1 (by decide)⟩

/-- C4: in the batch read as `"a\nexit\nb"`, the command `"a"` is dispatched,
the standalone poison line then stops the runtime with the nonzero error
exit, and `"b"` is never dispatched.  The poison literal only matches a
whole line: a line merely starting with `exit` is dispatched as an
ordinary command and does not stop the loop. -/
theorem c4_poison_precedence (pf : String → Bool)
    (ha : launchOutcome pf "a" = .ok)
    (hx : launchOutcome pf "exit now" = .ok) :
    (runDrone pf [⟨false, .bytes "a\nexit\nb"⟩]).invoked = ["a"] ∧
    (runDrone pf [⟨false, .bytes "a\nexit\nb"⟩]).result = .poisonStop ∧
    (runDrone pf [⟨false, .bytes "a\nexit\nb"⟩]).exitCode = some errorExitCode ∧
    "b" ∉ (runDrone pf [⟨false, .bytes "a\nexit\nb"⟩]).invoked ∧
    (runDrone pf [⟨false, .bytes "exit now"⟩]).result = .stillRunning ∧
    (runDrone pf [⟨false, .bytes "exit now"⟩]).invoked = ["exit now"] := by
  have hs : pySplitlines "a\nexit\nb" = ["a", "exit", "b"] := by decide
  have hs2 : pySplitlines "exit now" = ["exit now"] := by decide
  have h1 : processCmds pf ["a", "exit", "b"] = (["a"], .poison) := by
    simp [processCmds, ha, EXIT]
  have h2 : processCmds pf ["exit now"] = (["exit now"], .done) := by
    simp [processCmds, hx, EXIT]
  refine ⟨?_, ?_, ?_, ?_, ?_, ?_⟩ <;>
    simp [runDrone, loopGo, hs, hs2, h1, h2]

/-- Witness for `c4_poison_precedence` in an environment where every
program resolves. -/
theorem c4_poison_precedence_witness :
    (runDrone pfAll [⟨false, .bytes "a\nexit\nb"⟩]).invoked = ["a"] ∧
    (runDrone pfAll [⟨false, .bytes "a\nexit\nb"⟩]).result = .poisonStop ∧
    (runDrone pfAll [⟨false, .bytes "a\nexit\nb"⟩]).exitCode = some errorExitCode ∧
    "b" ∉ (runDrone pfAll [⟨false, .bytes "a\nexit\nb"⟩]).invoked ∧
    (runDrone pfAll [⟨false, .bytes "exit now"⟩]).result = .stillRunning ∧
    (runDrone pfAll [⟨false, .bytes "exit now"⟩]).invoked = ["exit now"] :=
  c4_poison_precedence pfAll (by decide) (by decide)

/-- C6: a single read of the bytes of `"a\nb\n"` is decoded, split on
newlines into `["a", "b"]`, and dispatched as exactly two `run_command`
invocations, `"a"` then `"b"`, in that order, after which the loop
continues. -/
theorem c6_batch_dispatch_order (pf : String → Bool)
    (ha : launchOutcome pf "a" = .ok)
    (hb : launchOutcome pf "b" = .ok) :
    pySplitlines "a\nb\n" = ["a", "b"] ∧
    (runDrone pf [⟨false, .bytes "a\nb\n"⟩]).invoked = ["a", "b"] ∧
    (runDrone pf [⟨false, .bytes "a\nb\n"⟩]).result = .stillRunning := by
  have hs : pySplitlines "a\nb\n" = ["a", "b"] := by decide
  have h1 : processCmds pf ["a", "b"] = (["a", "b"], .done) := by
    simp [processCmds, ha, hb, EXIT]
  refine ⟨hs, ?_, ?_⟩ <;> simp [runDrone, loopGo, hs, h1]

/-- Witness for `c6_batch_dispatch_order` in an environment where every
program resolves. -/
theorem c6_batch_dispatch_order_witness :
    pySplitlines "a\nb\n" = ["a", "b"] ∧
    (runDrone pfAll [⟨false, .bytes "a\nb\n"⟩]).invoked = ["a", "b"] ∧
    (runDrone pfAll [⟨false, .bytes "a\nb\n"⟩]).result = .stillRunning :=
  c6_batch_dispatch_order pfAll (by decide) (by decide)

/-- C9: splitting a batch does not filter empty lines.  The batch
`"a\n\nb"` splits into `["a", "", "b"]`, so `run_command` is invoked with
the empty string; the empty string tokenizes to an empty argument vector
(`shlex.split("") == []`), its launch fails (`Popen` with an empty argv
raises), and no handler guards the call, so the crash of the runtime at
the empty command is reachable from the public channel interface. -/
theorem c9_empty_line_dispatched (pf : String → Bool)
    (ha : launchOutcome pf "a" = .ok) :
    pySplitlines "a\n\nb" = ["a", "", "b"] ∧
    (runDrone pf [⟨false, .bytes "a\n\nb"⟩]).invoked = ["a", ""] ∧
    "" ∈ (runDrone pf [⟨false, .bytes "a\n\nb"⟩]).invoked ∧
    shlexSplit "" = some [] ∧
    launchOutcome pf "" = .failed ∧
    (runDrone pf [⟨false, .bytes "a\n\nb"⟩]).result = .launchCrashStop "" := by
  have hs : pySplitlines "a\n\nb" = ["a", "", "b"] := by decide
  have h0 : shlexSplit "" = some [] := by decide
  have hfail : launchOutcome pf "" = .failed := by
    simp [launchOutcome, h0]
  have h1 : processCmds pf ["a", "", "b"] = (["a", ""], .launchCrash "") := by
    simp [processCmds, ha, hfail, EXIT]
  refine ⟨hs, ?_, ?_, h0, hfail, ?_⟩ <;>
    simp [runDrone, loopGo, hs, h1]

/-- Witness for `c9_empty_line_dispatched` in an environment where every
program resolves (the empty command still fails: its argv is empty). -/
theorem c9_empty_line_dispatched_witness :
    pySplitlines "a\n\nb" = ["a", "", "b"] ∧
    (runDrone pfAll [⟨false, .bytes "a\n\nb"⟩]).invoked = ["a", ""] ∧
    "" ∈ (runDrone pfAll [⟨false, .bytes "a\n\nb"⟩]).invoked ∧
    shlexSplit "" = some [] ∧
    launchOutcome pfAll "" = .failed ∧
    (runDrone pfAll [⟨false, .bytes "a\n\nb"⟩]).result = .launchCrashStop "" :=
  c9_empty_line_dispatched pfAll (by decide)

/-- The UTF-8 byte count of a character list is additive over append. -/
theorem utf8ByteSize_go_append (l1 l2 : List Char) :
    String.utf8ByteSize.go (l1 ++ l2) =
      String.utf8ByteSize.go l1 + String.utf8ByteSize.go l2 := by
  induction l1 with
  | nil => simp [String.utf8ByteSize.go]
  | cons c cs ih =>
    simp only [List.cons_append, String.utf8ByteSize.go, List.append_eq, ih]
    omega

/-- The UTF-8 byte size of a string, through its character list. -/
theorem utf8ByteSize_eq (s : String) :
    s.utf8ByteSize = String.utf8ByteSize.go s.data := by
  cases s
  rfl

/-- Appending a newline grows the UTF-8 byte size by exactly one. -/
theorem utf8ByteSize_append_newline (s : String) :
    (s ++ "\n").utf8ByteSize = s.utf8ByteSize + 1 := by
  rw [utf8ByteSize_eq, utf8ByteSize_eq, String.data_append,
    utf8ByteSize_go_append]
  rfl

/-- C10: a batch's final command needs no trailing newline: the read
`"a\nb"` dispatches exactly `"a"` then `"b"`; a trailing newline adds no
extra empty command (`"a\nb\n"` dispatches the same two commands); and the
client write primitive delivers exactly the UTF-8 bytes of its payload,
never appending a newline. -/
theorem c10_no_trailing_newline_needed (pf : String → Bool)
    (ha : launchOutcome pf "a" = .ok)
    (hb : launchOutcome pf "b" = .ok) :
    pySplitlines "a\nb" = ["a", "b"] ∧
    (runDrone pf [⟨false, .bytes "a\nb"⟩]).invoked = ["a", "b"] ∧
    (runDrone pf [⟨false, .bytes "a\nb\n"⟩]).invoked = ["a", "b"] ∧
    send_command_payload "a\nb" = "a\nb".toUTF8 ∧
    (∀ cmd : String, send_command_payload cmd ≠ (cmd ++ "\n").toUTF8) := by
  have hs : pySplitlines "a\nb" = ["a", "b"] := by decide
  have hs2 : pySplitlines "a\nb\n" = ["a", "b"] := by decide
  have h1 : processCmds pf ["a", "b"] = (["a", "b"], .done) := by
    simp [processCmds, ha, hb, EXIT]
  refine ⟨hs, ?_, ?_, rfl, ?_⟩
  · simp [runDrone, loopGo, hs, h1]
  · simp [runDrone, loopGo, hs2, h1]
  · intro cmd h
    have hsize := congrArg ByteArray.size h
    rw [send_command_payload, String.size_toUTF8, String.size_toUTF8,
      utf8ByteSize_append_newline] at hsize
    omega

/-- Witness for `c10_no_trailing_newline_needed` in an environment where
every program resolves. -/
theorem c10_no_trailing_newline_needed_witness :
    pySplitlines "a\nb" = ["a", "b"] ∧
    (runDrone pfAll [⟨false, .bytes "a\nb"⟩]).invoked = ["a", "b"] ∧
    (runDrone pfAll [⟨false, .bytes "a\nb\n"⟩]).invoked = ["a", "b"] ∧
    send_command_payload "a\nb" = "a\nb".toUTF8 ∧
    (∀ cmd : String, send_command_payload cmd ≠ (cmd ++ "\n").toUTF8) :=
  c10_no_trailing_newline_needed pfAll (by decide) (by decide)

/-- Processing a batch whose commands launch fine up to a command whose
launch fails invokes exactly that prefix plus the failing command, and the
exception ends the batch (and, having no handler, the whole loop). -/
theorem processCmds_ok_prefix (pf : String → Bool) :
    ∀ (pre : List String) (c : String) (post : List String),
      (∀ d ∈ pre, d ≠ EXIT ∧ launchOutcome pf d = .ok) →
      c ≠ EXIT → launchOutcome pf c = .failed →
      processCmds pf (pre ++ c :: post) = (pre ++ [c], .launchCrash c) := by
  intro pre
  induction pre with
  | nil =>
    intro c post _ hc hf
    simp [processCmds, hc, hf]
  | cons d rest ih =>
    intro c post hall hc hf
    have hd := hall d (List.mem_cons_self _ _)
    have htail := ih c post (fun x hx => hall x (List.mem_cons_of_mem _ hx)) hc hf
    simp [processCmds, hd.1, hd.2, htail]

/-- C3 counterexample: the claim states that a failed launch is non-fatal
and the loop continues dispatching.  In the code nothing catches the
exception raised by `subprocess.Popen`/`subprocess.run`: with the program
`nosuch` unresolvable, the batch `"nosuch\ngood"` crashes the runtime at
`nosuch`, the later command `good` (and any later read) is never
dispatched, and the process dies with a nonzero status. -/
theorem c3_launch_failure_counterexample :
    (runDrone pfBad [⟨false, .bytes "nosuch\ngood"⟩, ⟨false, .bytes "good"⟩]).result
      = .launchCrashStop "nosuch" ∧
    "good" ∉ (runDrone pfBad
      [⟨false, .bytes "nosuch\ngood"⟩, ⟨false, .bytes "good"⟩]).invoked ∧
    (runDrone pfBad [⟨false, .bytes "nosuch\ngood"⟩, ⟨false, .bytes "good"⟩]).exitCode
      = some errorExitCode := by
  decide

/-- C3 amended: a command whose launch attempt fails raises an uncaught
exception: the message is a traceback, not a handled report, and the
runtime crashes with a nonzero exit; the commands after it in the same
batch and all later reads are never dispatched. -/
theorem c3_launch_failure_amended (pf : String → Bool) (t : String)
    (pre : List String) (c : String) (post : List String) (rest : List IterObs)
    (hsplit : pySplitlines t = pre ++ c :: post)
    (hpre : ∀ d ∈ pre, d ≠ EXIT ∧ launchOutcome pf d = .ok)
    (hc : c ≠ EXIT) (hfail : launchOutcome pf c = .failed) :
    (runDrone pf (⟨false, .bytes t⟩ :: rest)).result = .launchCrashStop c ∧
    (runDrone pf (⟨false, .bytes t⟩ :: rest)).invoked = pre ++ [c] ∧
    (runDrone pf (⟨false, .bytes t⟩ :: rest)).exitCode = some errorExitCode := by
  have hp := processCmds_ok_prefix pf pre c post hpre hc hfail
  refine ⟨?_, ?_, ?_⟩ <;> simp [runDrone, loopGo, hsplit, hp]

/-- Witness for `c3_launch_failure_amended`: with `nosuch` unresolvable,
the batch `"a\nnosuch\ngood"` dispatches `a`, crashes at `nosuch`, and
never dispatches `good`. -/
theorem c3_launch_failure_amended_witness :
    (runDrone pfBad [⟨false, .bytes "a\nnosuch\ngood"⟩]).result
      = .launchCrashStop "nosuch" ∧
    (runDrone pfBad [⟨false, .bytes "a\nnosuch\ngood"⟩]).invoked = ["a", "nosuch"] ∧
    (runDrone pfBad [⟨false, .bytes "a\nnosuch\ngood"⟩]).exitCode
      = some errorExitCode :=
  c3_launch_failure_amended pfBad "a\nnosuch\ngood" ["a"] "nosuch" ["good"] []
    (by decide) (by decide) (by decide) (by decide)

/-- The initial supervision state satisfies the invariant. -/
theorem supInv_init : SupInv initSup := by
  constructor
  · intro h hh
    simp [initSup] at hh
  · intro h _
    rfl

/-- Every supervision step preserves the invariant. -/
theorem supInv_step (s : SupState) (e : SupEvent) (hs : SupInv s) :
    SupInv (supStep s e).2 := by
  obtain ⟨h1, h2⟩ := hs
  cases e with
  | childExits h =>
    constructor
    · intro x hx
      simp only [supStep] at hx ⊢
      by_cases hxh : x = h
      · rw [if_pos hxh] at hx
        cases hx
      · rw [if_neg hxh] at hx
        exact h1 x hx
    · intro x hxn
      simp only [supStep] at hxn ⊢
      by_cases hxh : x = h
      · rw [if_pos hxh]
      · rw [if_neg hxh]
        exact h2 x hxn
  | newCommand =>
    simp only [supStep, run_command_nonpatient]
    cases hc : s.current with
    | none =>
      constructor
      · intro x hx
        simp only at hx ⊢
        by_cases hxn : x = s.nextId
        · simp [hxn]
        · rw [if_neg hxn] at hx
          have := h1 x hx
          rw [hc] at this
          cases this
      · intro x hxn
        simp only at hxn ⊢
        have hne : x ≠ s.nextId := by omega
        rw [if_neg hne]
        exact h2 x (by omega)
    | some hdl =>
      by_cases hal : s.alive hdl
      · simp only [if_pos hal]
        constructor
        · intro x hx
          simp only at hx ⊢
          by_cases hxn : x = s.nextId
          · simp [hxn]
          · rw [if_neg hxn] at hx
            by_cases hxh : x = hdl
            · rw [if_pos hxh] at hx
              cases hx
            · rw [if_neg hxh] at hx
              have := h1 x hx
              rw [hc] at this
              injection this with hh
              exact absurd hh.symm hxh
        · intro x hxn
          simp only at hxn ⊢
          have hne : x ≠ s.nextId := by omega
          rw [if_neg hne]
          by_cases hxh : x = hdl
          · rw [if_pos hxh]
          · rw [if_neg hxh]
            exact h2 x (by omega)
      · simp only [if_neg hal]
        constructor
        · intro x hx
          simp only at hx ⊢
          by_cases hxn : x = s.nextId
          · simp [hxn]
          · rw [if_neg hxn] at hx
            have := h1 x hx
            rw [hc] at this
            injection this with hh
            rw [← hh] at hx
            exact absurd hx hal
        · intro x hxn
          simp only at hxn ⊢
          have hne : x ≠ s.nextId := by omega
          rw [if_neg hne]
          exact h2 x (by omega)

/-- The invariant holds after any sequence of supervision events. -/
theorem supInv_run (es : List SupEvent) :
    ∀ s, SupInv s → SupInv (supRun s es).2 := by
  induction es with
  | nil => intro s hs; exact hs
  | cons e es ih =>
    intro s hs
    exact ih _ (supInv_step s e hs)

/-- C7: under the non-patient policy, in every state reachable from startup
at most one supervised child is alive; when a new command arrives while the
previous child is still running, the kill precedes the spawn in the actions
of `run_command`; and when the previous child has already exited (or none
was ever launched), no kill is attempted. -/
theorem c7_nonpatient_supersession (es : List SupEvent) :
    (∀ h1 h2, ((supRun initSup es).2).alive h1 = true →
      ((supRun initSup es).2).alive h2 = true → h1 = h2) ∧
    (∀ h, ((supRun initSup es).2).current = some h →
      ((supRun initSup es).2).alive h = true →
      (run_command_nonpatient (supRun initSup es).2).1
        = [SupAct.kill h, SupAct.spawn ((supRun initSup es).2).nextId]) ∧
    (∀ h, ((supRun initSup es).2).current = some h →
      ((supRun initSup es).2).alive h = false →
      ∀ x, SupAct.kill x ∉ (run_command_nonpatient (supRun initSup es).2).1) ∧
    (((supRun initSup es).2).current = none →
      ∀ x, SupAct.kill x ∉ (run_command_nonpatient (supRun initSup es).2).1) := by
  have hinv := supInv_run es initSup supInv_init
  refine ⟨?_, ?_, ?_, ?_⟩
  · intro a b ha hb
    have h1 := hinv.1 a ha
    have h2 := hinv.1 b hb
    rw [h1] at h2
    injection h2
  · intro h hc hal
    simp [run_command_nonpatient, hc, hal]
  · intro h hc hal x
    simp [run_command_nonpatient, hc, hal]
  · intro hc x
    simp [run_command_nonpatient, hc]

/-- Witness for `c7_nonpatient_supersession`: after one dispatch the child
with handle 0 is current and alive, and a second dispatch kills it before
spawning handle 1. -/
theorem c7_nonpatient_supersession_witness :
    (run_command_nonpatient (supRun initSup [SupEvent.newCommand]).2).1
      = [SupAct.kill 0, SupAct.spawn 1] :=
  (c7_nonpatient_supersession [SupEvent.newCommand]).2.1 0 (by decide) (by decide)

/-- Reading the digit list of `n` back yields `n` (fuel beyond `n`
suffices). -/
theorem ofDigits_natDigitsAux :
    ∀ fuel n : Nat, n < fuel → ofDigits (natDigitsAux fuel n) = n := by
  intro fuel
  induction fuel with
  | zero => intro n h; omega
  | succ f ih =>
    intro n h
    by_cases h10 : n < 10
    · simp [natDigitsAux, h10, ofDigits]
    · have hdiv : n / 10 < n := Nat.div_lt_self (by omega) (by omega)
      have hrec : n / 10 < f := by omega
      simp only [natDigitsAux, if_neg h10, ofDigits, ih _ hrec]
      omega

/-- Every digit produced by `natDigitsAux` is below 10. -/
theorem natDigitsAux_lt :
    ∀ fuel n : Nat, n < fuel → ∀ d ∈ natDigitsAux fuel n, d < 10 := by
  intro fuel
  induction fuel with
  | zero => intro n h; omega
  | succ f ih =>
    intro n h d hd
    by_cases h10 : n < 10
    · simp [natDigitsAux, h10] at hd
      omega
    · have hdiv : n / 10 < n := Nat.div_lt_self (by omega) (by omega)
      have hrec : n / 10 < f := by omega
      simp only [natDigitsAux, if_neg h10, List.mem_cons] at hd
      rcases hd with rfl | hd2
      · omega
      · exact ih _ hrec d hd2

/-- `Nat.digitChar` is injective on digits. -/
theorem digitChar_inj_lt :
    ∀ d, d < 10 → ∀ e, e < 10 → Nat.digitChar d = Nat.digitChar e → d = e := by
  decide

/-- Mapping `Nat.digitChar` over digit lists is injective. -/
theorem map_digitChar_inj :
    ∀ l1 l2 : List Nat, (∀ d ∈ l1, d < 10) → (∀ d ∈ l2, d < 10) →
      l1.map Nat.digitChar = l2.map Nat.digitChar → l1 = l2 := by
  intro l1
  induction l1 with
  | nil =>
    intro l2 _ _ h
    cases l2 with
    | nil => rfl
    | cons e es => simp at h
  | cons d ds ih =>
    intro l2 h1 h2 h
    cases l2 with
    | nil => simp at h
    | cons e es =>
      simp only [List.map_cons, List.cons.injEq] at h
      have hd : d = e :=
        digitChar_inj_lt d (h1 d (by simp)) e (h2 e (by simp)) h.1
      rw [hd, ih es (fun x hx => h1 x (by simp [hx]))
        (fun x hx => h2 x (by simp [hx])) h.2]

/-- The decimal rendering `pyStr` is injective. -/
theorem pyStr_inj (m n : Nat) (h : pyStr m = pyStr n) : m = n := by
  have hm := ofDigits_natDigitsAux (m + 1) m (by omega)
  have hn := ofDigits_natDigitsAux (n + 1) n (by omega)
  have hs : ((natDigitsAux (m + 1) m).reverse).map Nat.digitChar
      = ((natDigitsAux (n + 1) n).reverse).map Nat.digitChar := by
    have := congrArg String.data h
    simpa [pyStr] using this
  have hrev := map_digitChar_inj _ _
    (fun d hd => natDigitsAux_lt (m + 1) m (by omega) d (List.mem_reverse.mp hd))
    (fun d hd => natDigitsAux_lt (n + 1) n (by omega) d (List.mem_reverse.mp hd))
    hs
  have hdig := List.reverse_injective hrev
  rw [← hm, ← hn, hdig]

/-- Among `len + 1` consecutive candidates, some decimal string avoids any
list of at most `len` names (the candidate strings are pairwise
distinct). -/
theorem exists_free_id :
    ∀ (len : Nat) (names : List String), names.length ≤ len →
      ∀ i, ∃ k, k ≤ len ∧ pyStr (i + k) ∉ names := by
  intro len
  induction len with
  | zero =>
    intro names hlen i
    have hnil : names = [] := List.eq_nil_of_length_eq_zero (by omega)
    exact ⟨0, Nat.le_refl 0, by simp [hnil]⟩
  | succ L ih =>
    intro names hlen i
    by_cases hi : pyStr i ∈ names
    · have hlen2 : (names.erase (pyStr i)).length ≤ L := by
        rw [List.length_erase_of_mem hi]
        omega
      obtain ⟨k, hk, hout⟩ := ih (names.erase (pyStr i)) hlen2 (i + 1)
      refine ⟨k + 1, by omega, ?_⟩
      have harith : i + (k + 1) = (i + 1) + k := by omega
      rw [harith]
      intro hmem
      apply hout
      have hne : pyStr ((i + 1) + k) ≠ pyStr i := fun he => by
        have := pyStr_inj _ _ he
        omega
      exact (List.mem_erase_of_ne hne).mpr hmem
    · exact ⟨0, by omega, by simpa using hi⟩

/-- The allocation loop, given enough fuel to reach a free candidate,
returns the least free candidate at or after its start. -/
theorem alloc_loop_spec (names : List String) :
    ∀ fuel i : Nat, (∃ k, k ≤ fuel ∧ pyStr (i + k) ∉ names) →
      pyStr (alloc_loop names fuel i) ∉ names ∧
      i ≤ alloc_loop names fuel i ∧
      ∀ m, i ≤ m → m < alloc_loop names fuel i → pyStr m ∈ names := by
  intro fuel
  induction fuel with
  | zero =>
    rintro i ⟨k, hk, hout⟩
    have hk0 : k = 0 := by omega
    subst hk0
    simp only [alloc_loop]
    exact ⟨by simpa using hout, Nat.le_refl i,
      fun m h1 h2 => absurd h1 (by omega)⟩
  | succ f ih =>
    rintro i ⟨k, hk, hout⟩
    by_cases hi : pyStr i ∈ names
    · have hk0 : k ≠ 0 := by
        intro h
        subst h
        simp at hout
        exact hout hi
      obtain ⟨res1, res2, res3⟩ := ih (i + 1) ⟨k - 1, by omega, by
        have harith : (i + 1) + (k - 1) = i + k := by omega
        rw [harith]
        exact hout⟩
      simp only [alloc_loop, if_pos hi]
      refine ⟨res1, Nat.le_trans (Nat.le_succ i) res2, fun m h1 h2 => ?_⟩
      by_cases hmi : m = i
      · rw [hmi]
        exact hi
      · exact res3 m (by omega) h2
    · simp only [alloc_loop, if_neg hi]
      exact ⟨hi, Nat.le_refl i, fun m h1 h2 => absurd h1 (by omega)⟩

/-- C8: when no explicit id is requested, `init_drone` allocates the
decimal string of the smallest positive integer whose decimal string is
not among the existing channel names. -/
theorem c8_smallest_free_id (names : List String) (n : Nat)
    (hpos : 0 < n) (hfree : pyStr n ∉ names)
    (hmin : ∀ m, 0 < m → pyStr m ∉ names → n ≤ m) :
    init_drone_id names = pyStr n := by
  obtain ⟨k, hk, hout⟩ := exists_free_id names.length names (Nat.le_refl _) 1
  obtain ⟨hfree2, hge, hmin2⟩ :=
    alloc_loop_spec names (names.length + 1) 1 ⟨k, by omega, hout⟩
  have h1 : n ≤ alloc_loop names (names.length + 1) 1 :=
    hmin _ (by omega) hfree2
  have h2 : alloc_loop names (names.length + 1) 1 ≤ n := by
    by_contra hlt
    exact hfree (hmin2 n (by omega) (by omega))
  have heq : alloc_loop names (names.length + 1) 1 = n := by omega
  rw [init_drone_id, heq]

/-- Witness for `c8_smallest_free_id`: with existing ids 1 and 3 the
allocated id is 2; with no existing ids it is 1. -/
theorem c8_smallest_free_id_witness :
    init_drone_id ["1", "3"] = "2" ∧ init_drone_id ([] : List String) = "1" :=
  ⟨Eq.trans
    (c8_smallest_free_id ["1", "3"] 2 (by decide) (by decide)
      (fun m hm hf => by
        rcases Nat.lt_or_ge m 2 with h | h
        · have hm1 : m = 1 := by omega
          subst hm1
          exact absurd (by decide : pyStr 1 ∈ ["1", "3"]) hf
        · exact h))
    (by decide),
   Eq.trans
    (c8_smallest_free_id [] 1 (by decide) (by decide) (fun m hm _ => hm))
    (by decide)⟩
